import Mathlib

/-!
# Verification of the CoH2 team balancer core

Shallow embedding of the core logic of `src/main.py`:

* `TeamBalancer._find_closest_combination` (greedy balanced bipartition),
* `TeamBalancer.generate_teams` (resolving selected names against the
  player repository),
* `TeamBalancer.update_match_results`, `_update_team_ratings` and
  `_calculate_points` (the rating-adjustment formula),
* `PlayerRepository.update_player_rating` (conditional in-place update),
* the guard clauses of `BalancerGUI.run` around these calls.

Python floats are modelled as exact rationals (`ℚ`); Python dicts
(`dict[str, float]`, insertion ordered, unique keys) are modelled as
insertion-ordered association lists `List (String × ℚ)`.  Python's
`sorted(..., key=lambda x: x[1], reverse=True)` is a stable descending
sort, modelled by `List.insertionSort` with the non-strict relation
`b.2 ≤ a.2`.
-/

namespace CoH2

/-- A (player name, rating) pair, one item of a `dict[str, float]`. -/
abbrev Player := String × ℚ

/-- Sum of the ratings of a team, Python `sum(team.values())`. -/
def ratingSum (team : List Player) : ℚ :=
  (team.map Prod.snd).sum

/-! ## Point-calculation constants (`TeamBalancer.__init__`) -/

/-- `self.points_constant = 0.2` -/
def points_constant : ℚ := 0.2

/-- `self.points_per_500 = 0.2` -/
def points_per_500 : ℚ := 0.2

/-- `self.diff_amortization = 0.1` -/
def diff_amortization : ℚ := 0.1

/-- `self.min_gained_points = 0.1` -/
def min_gained_points : ℚ := 0.1

/-! ## Team generation -/

/-- One step of the greedy assignment loop in
`TeamBalancer._find_closest_combination`: the running teams and running
sums `team1, team2, sum1, sum2`. -/
structure GreedyState where
  team1 : List Player
  team2 : List Player
  sum1 : ℚ
  sum2 : ℚ

/-- The body of the `for player, score in sorted_players` loop of
`_find_closest_combination`. -/
def greedyStep (st : GreedyState) (p : Player) : GreedyState :=
  if st.team1.length < st.team2.length then
    { st with team1 := st.team1 ++ [p], sum1 := st.sum1 + p.2 }
  else if st.team2.length < st.team1.length then
    { st with team2 := st.team2 ++ [p], sum2 := st.sum2 + p.2 }
  else if st.sum1 ≤ st.sum2 then
    { st with team1 := st.team1 ++ [p], sum1 := st.sum1 + p.2 }
  else
    { st with team2 := st.team2 ++ [p], sum2 := st.sum2 + p.2 }

/-- `sorted_players` of `_find_closest_combination`: Python's stable
`sorted(players.items(), key=lambda x: x[1], reverse=True)`. -/
def sorted_players (players : List Player) : List Player :=
  List.insertionSort (fun a b : Player => b.2 ≤ a.2) players

/-- The state of the four loop variables `team1, team2, sum1, sum2` after
the greedy loop of `_find_closest_combination` has run. -/
def greedy_final (players : List Player) : GreedyState :=
  (sorted_players players).foldl greedyStep ⟨[], [], 0, 0⟩

/-- `TeamBalancer._find_closest_combination`: sort the players by rating
descending (stably), run the greedy loop, and return
`(team1, team2, abs(sum1 - sum2))`. -/
def find_closest_combination (players : List Player) :
    List Player × List Player × ℚ :=
  ((greedy_final players).team1, (greedy_final players).team2,
    |(greedy_final players).sum1 - (greedy_final players).sum2|)

/-- The name-resolution loop of `TeamBalancer.generate_teams`: build the
`player_ratings` dict from the selected names, keeping only names present
in the repository table.  A repeated name re-assigns the same value to an
existing dict key, which keeps the first insertion position — modelled by
skipping names already present. -/
def buildRatings (selected : List String) (table : List (String × ℚ)) :
    List Player :=
  selected.foldl
    (fun acc name =>
      match table.find? (fun e => e.1 == name) with
      | some e => if acc.any (fun q => q.1 == name) then acc else acc ++ [(name, e.2)]
      | none => acc)
    []

/-- The error taxonomy of the specification (§7).  Only
`insufficientPlayers` and `invalidTeamSelection` correspond to guards
actually present in the code (`BalancerGUI.run`). -/
inductive BalanceError where
  | insufficientPlayers
  | duplicateSelection
  | invalidTeamSelection
  | invalidScore
deriving DecidableEq

/-- The `partition` entry point: the `len(selected_players) < 2` guard of
`BalancerGUI.run` (which refuses to produce teams) composed with
`TeamBalancer.generate_teams`. -/
def partition (selected : List String) (table : List (String × ℚ)) :
    Except BalanceError (List Player × List Player × ℚ) :=
  if selected.length < 2 then
    .error .insufficientPlayers
  else
    .ok (find_closest_combination (buildRatings selected table))

/-! ## Rating adjustment -/

/-- `TeamBalancer._calculate_points`: the per-player signed delta. -/
def calculate_points (diff : ℚ) (won : Bool) (points_scored : ℤ)
    (quotient : ℚ) : ℚ :=
  let base_points :=
    (points_constant + points_per_500 * ((points_scored : ℚ) / 500) +
      diff_amortization * diff) * quotient
  let signed := if won then base_points else -base_points
  if won then max signed min_gained_points else min signed (-min_gained_points)

/-- `PlayerRepository.update_player_rating`: add `points` to the entry of
`name` when present, otherwise do nothing. -/
def update_player_rating (table : List (String × ℚ)) (name : String)
    (points : ℚ) : List (String × ℚ) :=
  table.map fun e => if e.1 = name then (e.1, e.2 + points) else e

/-- `TeamBalancer._update_team_ratings`: apply `calculate_points` to every
member of `team`. -/
def update_team_ratings (table : List (String × ℚ)) (team : List Player)
    (diff : ℚ) (won : Bool) (points_scored : ℤ) (quotient : ℚ) :
    List (String × ℚ) :=
  team.foldl
    (fun tbl p =>
      update_player_rating tbl p.1 (calculate_points diff won points_scored quotient))
    table

/-- Python `max(l)` on a non-empty list (`0` for `[]`, unreachable in the
guarded code path). -/
def list_max : List ℚ → ℚ
  | [] => 0
  | x :: xs => xs.foldl max x

/-- Python `min(l)` on a non-empty list (`0` for `[]`, unreachable in the
guarded code path). -/
def list_min : List ℚ → ℚ
  | [] => 0
  | x :: xs => xs.foldl min x

/-- The quotient computation of `update_match_results`:
`min(all_ratings) / max(all_ratings)` when the list is non-empty with a
positive maximum, else `1.0`. -/
def rating_quotient (ratings : List ℚ) : ℚ :=
  if ratings ≠ [] ∧ 0 < list_max ratings then
    list_min ratings / list_max ratings
  else
    1

/-- The `adjusted_diff` computation of `update_match_results`:
`-abs(team_diff)` when the favored team won, `abs(team_diff)` otherwise. -/
def adjusted_diff_calc (team_diff : ℚ) (winning_team : ℤ) : ℚ :=
  if (0 < team_diff ∧ winning_team = 1) ∨ (team_diff < 0 ∧ winning_team = 2) then
    -|team_diff|
  else
    |team_diff|

/-- The mutable state of `TeamBalancer` relevant to
`update_match_results`: the current teams and the repository's rating
table. -/
structure BalancerState where
  team1 : List Player
  team2 : List Player
  players : List (String × ℚ)

/-- `TeamBalancer.update_match_results`: recompute the team sums, the
quotient and the adjusted difference, then update first the winning and
then the losing team's ratings.  Returns the new rating table (the
`save_players` file write is outside the core). -/
def update_match_results (st : BalancerState) (winning_team : ℤ)
    (points_scored : ℤ) : List (String × ℚ) :=
  let sum1 := ratingSum st.team1
  let sum2 := ratingSum st.team2
  let team_diff := sum1 - sum2
  let quotient := rating_quotient (st.players.map Prod.snd)
  let adjusted_diff := adjusted_diff_calc team_diff winning_team
  if winning_team = 1 then
    update_team_ratings
      (update_team_ratings st.players st.team1 adjusted_diff true points_scored quotient)
      st.team2 adjusted_diff false points_scored quotient
  else
    update_team_ratings
      (update_team_ratings st.players st.team2 adjusted_diff true points_scored quotient)
      st.team1 adjusted_diff false points_scored quotient

/-- The `adjust` entry point: the `winning_team not in [1, 2]` guard of
`BalancerGUI.run` (which refuses to update ratings) composed with
`TeamBalancer.update_match_results`.  There is no guard on the sign of
`points_scored`. -/
def adjust (st : BalancerState) (winning_team : ℤ) (points_scored : ℤ) :
    Except BalanceError (List (String × ℚ)) :=
  if winning_team ≠ 1 ∧ winning_team ≠ 2 then
    .error .invalidTeamSelection
  else
    .ok (update_match_results st winning_team points_scored)

/-- The sum of the table entries whose name belongs to `names` (claim
vocabulary: the rating table restricted to a set of players). -/
def restrictedSum (table : List (String × ℚ)) (names : List String) : ℚ :=
  ((table.filter fun e => decide (e.1 ∈ names)).map Prod.snd).sum

/-! ## Invariants of the greedy assignment loop -/

lemma ratingSum_append (l₁ l₂ : List Player) :
    ratingSum (l₁ ++ l₂) = ratingSum l₁ + ratingSum l₂ := by
  simp [ratingSum]

/-- One greedy step keeps the running sums equal to the team rating sums. -/
lemma greedyStep_sums (st : GreedyState) (p : Player)
    (h1 : st.sum1 = ratingSum st.team1) (h2 : st.sum2 = ratingSum st.team2) :
    (greedyStep st p).sum1 = ratingSum (greedyStep st p).team1 ∧
      (greedyStep st p).sum2 = ratingSum (greedyStep st p).team2 := by
  unfold greedyStep
  split_ifs <;>
    exact ⟨by simp [ratingSum, h1, h2], by simp [ratingSum, h1, h2]⟩

/-- The running sums of the greedy loop track the team rating sums. -/
lemma greedy_foldl_sums (l : List Player) :
    ∀ st : GreedyState, st.sum1 = ratingSum st.team1 →
      st.sum2 = ratingSum st.team2 →
      (l.foldl greedyStep st).sum1 = ratingSum (l.foldl greedyStep st).team1 ∧
        (l.foldl greedyStep st).sum2 = ratingSum (l.foldl greedyStep st).team2 := by
  induction l with
  | nil => exact fun st h1 h2 => ⟨h1, h2⟩
  | cons p l ih =>
    intro st h1 h2
    rw [List.foldl_cons]
    exact ih _ (greedyStep_sums st p h1 h2).1 (greedyStep_sums st p h1 h2).2

lemma perm_snoc_append (A B : List Player) (p : Player) :
    ((A ++ [p]) ++ B).Perm ((A ++ B) ++ [p]) := by
  rw [List.append_assoc, List.append_assoc]
  exact List.Perm.append_left A List.perm_append_comm

/-- One greedy step appends the new player to one of the two teams. -/
lemma greedyStep_perm (st : GreedyState) (p : Player) :
    ((greedyStep st p).team1 ++ (greedyStep st p).team2).Perm
      ((st.team1 ++ st.team2) ++ [p]) := by
  unfold greedyStep
  split_ifs
  · exact perm_snoc_append _ _ _
  · rw [List.append_assoc]
  · exact perm_snoc_append _ _ _
  · rw [List.append_assoc]

/-- The two teams built by the greedy loop are together a permutation of
the initial teams followed by the processed players. -/
lemma greedy_foldl_perm (l : List Player) :
    ∀ st : GreedyState,
      ((l.foldl greedyStep st).team1 ++ (l.foldl greedyStep st).team2).Perm
        ((st.team1 ++ st.team2) ++ l) := by
  induction l with
  | nil => intro st; simp
  | cons p l ih =>
    intro st
    rw [List.foldl_cons]
    have h3 := (ih (greedyStep st p)).trans
      (List.Perm.append_right l (greedyStep_perm st p))
    have h4 : ((st.team1 ++ st.team2) ++ [p]) ++ l =
        (st.team1 ++ st.team2) ++ (p :: l) := by
      rw [List.append_assoc]; rfl
    rw [h4] at h3
    exact h3

/-- One greedy step keeps the team sizes within one of each other. -/
lemma greedyStep_size (st : GreedyState) (p : Player)
    (h : |(st.team1.length : ℤ) - (st.team2.length : ℤ)| ≤ 1) :
    |(((greedyStep st p).team1.length : ℤ) -
        ((greedyStep st p).team2.length : ℤ))| ≤ 1 := by
  rw [abs_le] at h ⊢
  unfold greedyStep
  split_ifs with hlt hlt2 h3 <;>
    simp only [List.length_append, List.length_cons, List.length_nil] <;>
    push_cast <;> omega

/-- The greedy loop keeps the team sizes within one of each other. -/
lemma greedy_foldl_size (l : List Player) :
    ∀ st : GreedyState, |(st.team1.length : ℤ) - (st.team2.length : ℤ)| ≤ 1 →
      |(((l.foldl greedyStep st).team1.length : ℤ) -
          ((l.foldl greedyStep st).team2.length : ℤ))| ≤ 1 := by
  induction l with
  | nil => exact fun st h => h
  | cons p l ih =>
    intro st h
    rw [List.foldl_cons]
    exact ih _ (greedyStep_size st p h)

/-! ## The rating update as a pointwise map over the table -/

/-- The signed pre-match imbalance `sum1 - sum2` of `update_match_results`. -/
def raw_diff (st : BalancerState) : ℚ :=
  ratingSum st.team1 - ratingSum st.team2

/-- The quotient used by `update_match_results` for state `st`. -/
def match_quotient (st : BalancerState) : ℚ :=
  rating_quotient (st.players.map Prod.snd)

/-- The team treated as the winner by `update_match_results`. -/
def winner_team (st : BalancerState) (winning_team : ℤ) : List Player :=
  if winning_team = 1 then st.team1 else st.team2

/-- The team treated as the loser by `update_match_results`. -/
def loser_team (st : BalancerState) (winning_team : ℤ) : List Player :=
  if winning_team = 1 then st.team2 else st.team1

/-- The delta every winning player receives. -/
def winner_delta (st : BalancerState) (winning_team points_scored : ℤ) : ℚ :=
  calculate_points (adjusted_diff_calc (raw_diff st) winning_team) true
    points_scored (match_quotient st)

/-- The delta every losing player receives. -/
def loser_delta (st : BalancerState) (winning_team points_scored : ℤ) : ℚ :=
  calculate_points (adjusted_diff_calc (raw_diff st) winning_team) false
    points_scored (match_quotient st)

/-- `_update_team_ratings` is a pointwise update of the table: every entry
whose name is on the team gets the (player-independent) delta added,
every other entry is untouched, and no entry is created or removed. -/
lemma update_team_ratings_eq_map (team : List Player) :
    ∀ (tbl : List (String × ℚ)) (diff : ℚ) (won : Bool) (ps : ℤ) (q : ℚ),
      (team.map Prod.fst).Nodup →
      update_team_ratings tbl team diff won ps q =
        tbl.map fun e =>
          if e.1 ∈ team.map Prod.fst then
            (e.1, e.2 + calculate_points diff won ps q) else e := by
  induction team with
  | nil =>
    intro tbl diff won ps q _
    simp [update_team_ratings]
  | cons p rest ih =>
    intro tbl diff won ps q hnd
    simp only [List.map_cons, List.nodup_cons] at hnd
    obtain ⟨hp, hrest⟩ := hnd
    have step : update_team_ratings tbl (p :: rest) diff won ps q =
        update_team_ratings (update_player_rating tbl p.1
          (calculate_points diff won ps q)) rest diff won ps q := by
      simp [update_team_ratings]
    rw [step, ih _ diff won ps q hrest, update_player_rating, List.map_map]
    refine List.map_congr_left ?_
    intro e _
    by_cases h1 : e.1 = p.1
    · simp [Function.comp, h1, hp]
    · by_cases h2 : e.1 ∈ rest.map Prod.fst <;>
        simp [Function.comp, h1, h2]

/-- Updating first the winners and then the losers is one pointwise pass
when no player is on both teams. -/
lemma map_update_twice (tbl : List (String × ℚ)) (wNames lNames : List String)
    (wd ld : ℚ) (hdisj : ∀ n, n ∈ wNames → n ∉ lNames) :
    ((tbl.map fun e => if e.1 ∈ wNames then (e.1, e.2 + wd) else e).map
        fun e => if e.1 ∈ lNames then (e.1, e.2 + ld) else e) =
      tbl.map fun e =>
        if e.1 ∈ wNames then (e.1, e.2 + wd)
        else if e.1 ∈ lNames then (e.1, e.2 + ld) else e := by
  rw [List.map_map]
  refine List.map_congr_left ?_
  intro e _
  by_cases hw : e.1 ∈ wNames
  · simp [Function.comp, hw, hdisj e.1 hw]
  · by_cases hl : e.1 ∈ lNames <;> simp [Function.comp, hw, hl]

/-- `update_match_results` as one pointwise map over the rating table. -/
lemma update_match_results_eq_map (st : BalancerState) (wt ps : ℤ)
    (h1 : (st.team1.map Prod.fst).Nodup) (h2 : (st.team2.map Prod.fst).Nodup)
    (hd : ∀ n, n ∈ st.team1.map Prod.fst → n ∉ st.team2.map Prod.fst) :
    update_match_results st wt ps =
      st.players.map fun e =>
        if e.1 ∈ (winner_team st wt).map Prod.fst then
          (e.1, e.2 + winner_delta st wt ps)
        else if e.1 ∈ (loser_team st wt).map Prod.fst then
          (e.1, e.2 + loser_delta st wt ps)
        else e := by
  by_cases hwt : wt = 1
  · subst hwt
    rw [update_match_results, if_pos rfl,
      update_team_ratings_eq_map st.team1 st.players _ _ _ _ h1,
      update_team_ratings_eq_map st.team2 _ _ _ _ _ h2,
      map_update_twice _ _ _ _ _ hd]
    simp [winner_team, loser_team, winner_delta, loser_delta, raw_diff,
      match_quotient]
  · have hd2 : ∀ n, n ∈ st.team2.map Prod.fst → n ∉ st.team1.map Prod.fst :=
      fun n hn2 hn1 => hd n hn1 hn2
    rw [update_match_results, if_neg hwt,
      update_team_ratings_eq_map st.team2 st.players _ _ _ _ h2,
      update_team_ratings_eq_map st.team1 _ _ _ _ _ h1,
      map_update_twice _ _ _ _ _ hd2]
    simp [winner_team, loser_team, winner_delta, loser_delta, raw_diff,
      match_quotient, hwt]
    intro a b hab
    rw [if_neg hwt, if_neg hwt]

/-- The name-resolution loop of `generate_teams` never produces a
duplicated name: each name is inserted at most once. -/
lemma buildRatings_nodup (selected : List String) (table : List (String × ℚ)) :
    ((buildRatings selected table).map Prod.fst).Nodup := by
  suffices h : ∀ acc : List Player, (acc.map Prod.fst).Nodup →
      ((selected.foldl
        (fun acc name =>
          match table.find? (fun e => e.1 == name) with
          | some e => if acc.any (fun q => q.1 == name) then acc else acc ++ [(name, e.2)]
          | none => acc)
        acc).map Prod.fst).Nodup by
    exact h [] (by simp)
  induction selected with
  | nil => intro acc hacc; simpa using hacc
  | cons name rest ih =>
    intro acc hacc
    rw [List.foldl_cons]
    cases hfind : table.find? (fun e => e.1 == name) with
    | none => simpa [hfind] using ih acc hacc
    | some e =>
      by_cases hany : acc.any (fun q => q.1 == name) = true
      · simpa [hfind, hany] using ih acc hacc
      · have hnotmem : name ∉ acc.map Prod.fst := by
          simp only [List.any_eq_true, beq_iff_eq] at hany
          simp only [List.mem_map]
          rintro ⟨q, hq, hqname⟩
          exact hany ⟨q, hq, hqname⟩
        have hacc2 : ((acc ++ [(name, e.2)]).map Prod.fst).Nodup := by
          simp [List.nodup_append, hacc, hnotmem]
        simpa [hfind, hany] using ih (acc ++ [(name, e.2)]) hacc2

/-! ## Characterization of `list_max`, `list_min` -/

lemma foldl_max_spec (l : List ℚ) :
    ∀ a : ℚ, a ≤ l.foldl max a ∧ (∀ x ∈ l, x ≤ l.foldl max a) ∧
      (l.foldl max a = a ∨ l.foldl max a ∈ l) := by
  induction l with
  | nil => exact fun a => ⟨le_refl a, by simp, Or.inl rfl⟩
  | cons x xs ih =>
    intro a
    rw [List.foldl_cons]
    obtain ⟨hle, hub, hmem⟩ := ih (max a x)
    refine ⟨le_trans (le_max_left a x) hle, ?_, ?_⟩
    · intro y hy
      rcases List.mem_cons.mp hy with rfl | hy2
      · exact le_trans (le_max_right a y) hle
      · exact hub y hy2
    · rcases hmem with heq | hm
      · rcases max_choice a x with h | h
        · exact Or.inl (by rw [heq, h])
        · exact Or.inr (by rw [heq, h]; exact List.mem_cons_self x xs)
      · exact Or.inr (List.mem_cons_of_mem x hm)

lemma foldl_min_spec (l : List ℚ) :
    ∀ a : ℚ, l.foldl min a ≤ a ∧ (∀ x ∈ l, l.foldl min a ≤ x) ∧
      (l.foldl min a = a ∨ l.foldl min a ∈ l) := by
  induction l with
  | nil => exact fun a => ⟨le_refl a, by simp, Or.inl rfl⟩
  | cons x xs ih =>
    intro a
    rw [List.foldl_cons]
    obtain ⟨hle, hlb, hmem⟩ := ih (min a x)
    refine ⟨le_trans hle (min_le_left a x), ?_, ?_⟩
    · intro y hy
      rcases List.mem_cons.mp hy with rfl | hy2
      · exact le_trans hle (min_le_right a y)
      · exact hlb y hy2
    · rcases hmem with heq | hm
      · rcases min_choice a x with h | h
        · exact Or.inl (by rw [heq, h])
        · exact Or.inr (by rw [heq, h]; exact List.mem_cons_self x xs)
      · exact Or.inr (List.mem_cons_of_mem x hm)

/-- `list_max` of a non-empty list is a member and an upper bound,
exactly Python's `max`. -/
lemma list_max_spec (l : List ℚ) (h : l ≠ []) :
    list_max l ∈ l ∧ ∀ x ∈ l, x ≤ list_max l := by
  cases l with
  | nil => exact absurd rfl h
  | cons x xs =>
    obtain ⟨hle, hub, hmem⟩ := foldl_max_spec xs x
    refine ⟨?_, ?_⟩
    · rcases hmem with heq | hm
      · rw [list_max, heq]; exact List.mem_cons_self x xs
      · rw [list_max]; exact List.mem_cons_of_mem x hm
    · intro y hy
      rcases List.mem_cons.mp hy with rfl | hy2
      · exact hle
      · exact hub y hy2

/-- `list_min` of a non-empty list is a member and a lower bound,
exactly Python's `min`. -/
lemma list_min_spec (l : List ℚ) (h : l ≠ []) :
    list_min l ∈ l ∧ ∀ x ∈ l, list_min l ≤ x := by
  cases l with
  | nil => exact absurd rfl h
  | cons x xs =>
    obtain ⟨hle, hlb, hmem⟩ := foldl_min_spec xs x
    refine ⟨?_, ?_⟩
    · rcases hmem with heq | hm
      · rw [list_min, heq]; exact List.mem_cons_self x xs
      · rw [list_min]; exact List.mem_cons_of_mem x hm
    · intro y hy
      rcases List.mem_cons.mp hy with rfl | hy2
      · exact hle
      · exact hlb y hy2

/-! ## Effect of the pointwise update on the restricted sum -/

/-- Applying the two deltas pointwise shifts the restricted sum by
(winners present) · wd + (losers present) · ld. -/
lemma restrictedSum_map_update (wNames lNames : List String) (wd ld : ℚ)
    (hdisj : ∀ n, n ∈ wNames → n ∉ lNames) (tbl : List (String × ℚ)) :
    restrictedSum
        (tbl.map fun e =>
          if e.1 ∈ wNames then (e.1, e.2 + wd)
          else if e.1 ∈ lNames then (e.1, e.2 + ld) else e)
        (wNames ++ lNames) =
      restrictedSum tbl (wNames ++ lNames) +
        (tbl.countP fun e => decide (e.1 ∈ wNames)) * wd +
        (tbl.countP fun e => decide (e.1 ∈ lNames)) * ld := by
  induction tbl with
  | nil => simp [restrictedSum]
  | cons e t ih =>
    by_cases hw : e.1 ∈ wNames
    · have hl : e.1 ∉ lNames := hdisj e.1 hw
      simp only [restrictedSum, List.map_cons, List.filter_cons,
        List.countP_cons] at ih ⊢
      simp [hw, hl] at ih ⊢
      linarith [ih]
    · by_cases hl : e.1 ∈ lNames
      · simp only [restrictedSum, List.map_cons, List.filter_cons,
          List.countP_cons] at ih ⊢
        simp [hw, hl] at ih ⊢
        linarith [ih]
      · simp only [restrictedSum, List.map_cons, List.filter_cons,
          List.countP_cons] at ih ⊢
        simp [hw, hl] at ih ⊢
        linarith [ih]

/-! ## Consequences for `greedy_final` -/

lemma greedy_final_perm (players : List Player) :
    ((greedy_final players).team1 ++ (greedy_final players).team2).Perm
      players := by
  have h : ((greedy_final players).team1 ++ (greedy_final players).team2).Perm
      (sorted_players players) := by
    simpa [greedy_final] using
      greedy_foldl_perm (sorted_players players) ⟨[], [], 0, 0⟩
  exact h.trans (List.perm_insertionSort _ players)

lemma greedy_final_sums (players : List Player) :
    (greedy_final players).sum1 = ratingSum (greedy_final players).team1 ∧
      (greedy_final players).sum2 = ratingSum (greedy_final players).team2 :=
  greedy_foldl_sums (sorted_players players) ⟨[], [], 0, 0⟩
    (by simp [ratingSum]) (by simp [ratingSum])

lemma greedy_final_size (players : List Player) :
    |(((greedy_final players).team1.length : ℤ) -
        ((greedy_final players).team2.length : ℤ))| ≤ 1 :=
  greedy_foldl_size (sorted_players players) ⟨[], [], 0, 0⟩ (by simp)

/-! ## Claim theorems -/

/-- C1: for every duplicate-free selection of at least two
(name, rating) pairs, the partition returns two name-disjoint teams that
together are a permutation of the input — no player dropped or
duplicated — and the returned imbalance equals
`|sum(team1) − sum(team2)|`, which is nonnegative. -/
theorem partition_core_correct (players : List Player)
    (hn : (players.map Prod.fst).Nodup) (h2 : 2 ≤ players.length) :
    ((find_closest_combination players).1 ++
        (find_closest_combination players).2.1).Perm players ∧
      (∀ n, n ∈ (find_closest_combination players).1.map Prod.fst →
        n ∉ (find_closest_combination players).2.1.map Prod.fst) ∧
      (find_closest_combination players).2.2 =
        |ratingSum (find_closest_combination players).1 -
          ratingSum (find_closest_combination players).2.1| ∧
      0 ≤ (find_closest_combination players).2.2 := by
  have hperm : ((greedy_final players).team1 ++
      (greedy_final players).team2).Perm players := greedy_final_perm players
  refine ⟨hperm, ?_, ?_, ?_⟩
  · have hnodup : (((greedy_final players).team1 ++
        (greedy_final players).team2).map Prod.fst).Nodup :=
      ((hperm.map Prod.fst).nodup_iff).mpr hn
    rw [List.map_append, List.nodup_append] at hnodup
    exact fun n hn1 hn2 => hnodup.2.2 hn1 hn2
  · show |(greedy_final players).sum1 - (greedy_final players).sum2| =
      |ratingSum (greedy_final players).team1 -
        ratingSum (greedy_final players).team2|
    rw [(greedy_final_sums players).1, (greedy_final_sums players).2]
  · exact abs_nonneg _

/-- Witness for C1 at the two-player selection `[A ↦ 10, B ↦ 8]`. -/
theorem partition_core_correct_witness :
    (([("A", (10 : ℚ)), ("B", 8)].map Prod.fst).Nodup ∧
        2 ≤ [("A", (10 : ℚ)), ("B", 8)].length) ∧
      ((find_closest_combination [("A", (10 : ℚ)), ("B", 8)]).1 ++
          (find_closest_combination [("A", (10 : ℚ)), ("B", 8)]).2.1).Perm
        [("A", 10), ("B", 8)] :=
  ⟨⟨by simp, by simp⟩,
    (partition_core_correct [("A", (10 : ℚ)), ("B", 8)] (by simp) (by simp)).1⟩

/-- C4: whenever `partition` returns a team split, the two team sizes
differ by at most one. -/
theorem partition_team_sizes (selected : List String)
    (table : List (String × ℚ)) (t1 t2 : List Player) (d : ℚ)
    (h : partition selected table = .ok (t1, t2, d)) :
    |(t1.length : ℤ) - (t2.length : ℤ)| ≤ 1 := by
  by_cases hlen : selected.length < 2
  · rw [partition, if_pos hlen] at h
    exact absurd h (by simp)
  · rw [partition, if_neg hlen] at h
    simp only [Except.ok.injEq] at h
    have h1 : (greedy_final (buildRatings selected table)).team1 = t1 :=
      congrArg Prod.fst h
    have h2t : (greedy_final (buildRatings selected table)).team2 = t2 :=
      congrArg (fun x => x.2.1) h
    rw [← h1, ← h2t]
    exact greedy_final_size (buildRatings selected table)

/-- Witness for C4 at the selection `["A", "B"]` over the table
`[A ↦ 5, B ↦ 3]`. -/
theorem partition_team_sizes_witness :
    |(([("A", (5 : ℚ))] : List Player).length : ℤ) -
        (([("B", (3 : ℚ))] : List Player).length : ℤ)| ≤ 1 :=
  partition_team_sizes ["A", "B"] [("A", 5), ("B", 3)]
    [("A", 5)] [("B", 3)] 2
    (by simp [partition, buildRatings, find_closest_combination, greedy_final,
          sorted_players, List.insertionSort, List.orderedInsert]
        norm_num [greedyStep, ratingSum])

/-- C6: a selection of fewer than two players is refused with
`InsufficientPlayers`; no team split is produced. -/
theorem partition_insufficient (selected : List String)
    (table : List (String × ℚ)) (h : selected.length < 2) :
    partition selected table = .error .insufficientPlayers := by
  rw [partition, if_pos h]

/-- Witness for C6: selecting just `A` from the table `[A ↦ 5]`. -/
theorem partition_insufficient_witness :
    (["A"].length < 2) ∧
      partition ["A"] [("A", (5 : ℚ))] = .error .insufficientPlayers :=
  ⟨by simp, partition_insufficient ["A"] [("A", (5 : ℚ))] (by simp)⟩

/-- Counterexample to C7: the duplicated selection `["A", "A"]` is not
rejected with `DuplicateSelection` — `partition` returns a team split. -/
theorem partition_duplicate_counterexample :
    partition ["A", "A"] [("A", (5 : ℚ))] = .ok ([("A", 5)], [], 5) ∧
      partition ["A", "A"] [("A", (5 : ℚ))] ≠ .error .duplicateSelection := by
  constructor
  · simp [partition, buildRatings, find_closest_combination, greedy_final,
      sorted_players, List.insertionSort, List.orderedInsert, greedyStep,
      ratingSum]
  · simp [partition, buildRatings]

/-- C7 (amended): a selection containing duplicate names is not rejected;
provided at least two names are selected, `partition` returns a team
split computed on the deduplicated name → rating mapping (the ratings
dict collapses repeated names). -/
theorem partition_duplicates_deduplicated (selected : List String)
    (table : List (String × ℚ)) (hdup : ¬selected.Nodup)
    (h2 : 2 ≤ selected.length) :
    partition selected table =
        .ok (find_closest_combination (buildRatings selected table)) ∧
      ((buildRatings selected table).map Prod.fst).Nodup := by
  refine ⟨?_, buildRatings_nodup selected table⟩
  rw [partition, if_neg (by omega)]

/-- Witness for the amended C7 at the duplicated selection `["A", "A"]`. -/
theorem partition_duplicates_deduplicated_witness :
    (¬(["A", "A"].Nodup) ∧ 2 ≤ ["A", "A"].length) ∧
      partition ["A", "A"] [("A", (5 : ℚ))] =
        .ok (find_closest_combination (buildRatings ["A", "A"]
          [("A", (5 : ℚ))])) :=
  ⟨⟨by simp, by simp⟩,
    (partition_duplicates_deduplicated ["A", "A"] [("A", (5 : ℚ))]
      (by simp) (by simp)).1⟩

/-- C2: with `rawDiff = sum(team1) − sum(team2)`, the adjusted difference
is `−|rawDiff|` when the favored team (strictly higher sum) wins and
`+|rawDiff|` when the underdog wins, and `update_match_results` feeds
this single value to both teams' point calculations. -/
theorem adjusted_diff_spec (st : BalancerState) (wt ps : ℤ) :
    (((wt = 1 ∧ ratingSum st.team2 < ratingSum st.team1) ∨
        (wt = 2 ∧ ratingSum st.team1 < ratingSum st.team2)) →
      adjusted_diff_calc (raw_diff st) wt = -|raw_diff st|) ∧
    (((wt = 1 ∧ ratingSum st.team1 < ratingSum st.team2) ∨
        (wt = 2 ∧ ratingSum st.team2 < ratingSum st.team1)) →
      adjusted_diff_calc (raw_diff st) wt = |raw_diff st|) ∧
    update_match_results st wt ps =
      (if wt = 1 then
        update_team_ratings
          (update_team_ratings st.players st.team1
            (adjusted_diff_calc (raw_diff st) wt) true ps (match_quotient st))
          st.team2 (adjusted_diff_calc (raw_diff st) wt) false ps
          (match_quotient st)
      else
        update_team_ratings
          (update_team_ratings st.players st.team2
            (adjusted_diff_calc (raw_diff st) wt) true ps (match_quotient st))
          st.team1 (adjusted_diff_calc (raw_diff st) wt) false ps
          (match_quotient st)) := by
  refine ⟨?_, ?_, rfl⟩
  · rintro (⟨rfl, hlt⟩ | ⟨rfl, hlt⟩)
    · have hpos : 0 < raw_diff st := by simp only [raw_diff]; linarith
      unfold adjusted_diff_calc
      rw [if_pos (Or.inl ⟨hpos, rfl⟩)]
    · have hneg : raw_diff st < 0 := by simp only [raw_diff]; linarith
      unfold adjusted_diff_calc
      rw [if_pos (Or.inr ⟨hneg, rfl⟩)]
  · rintro (⟨rfl, hlt⟩ | ⟨rfl, hlt⟩)
    · have hneg : raw_diff st < 0 := by simp only [raw_diff]; linarith
      unfold adjusted_diff_calc
      rw [if_neg]
      rintro (⟨h0, _⟩ | ⟨_, h2eq⟩)
      · linarith
      · norm_num at h2eq
    · have hpos : 0 < raw_diff st := by simp only [raw_diff]; linarith
      unfold adjusted_diff_calc
      rw [if_neg]
      rintro (⟨_, h1eq⟩ | ⟨hdneg, _⟩)
      · norm_num at h1eq
      · linarith

/-- Witness for C2: team1 (sum 10) beats team2 (sum 8); the favored team
won, so the adjusted difference is `−|rawDiff|`. -/
theorem adjusted_diff_spec_witness :
    adjusted_diff_calc
        (raw_diff ⟨[("A", (10 : ℚ))], [("B", (8 : ℚ))], [("A", 10), ("B", 8)]⟩)
        1 =
      -|raw_diff ⟨[("A", (10 : ℚ))], [("B", (8 : ℚ))], [("A", 10), ("B", 8)]⟩| :=
  (adjusted_diff_spec ⟨[("A", (10 : ℚ))], [("B", (8 : ℚ))],
      [("A", 10), ("B", 8)]⟩ 1 500).1
    (Or.inl ⟨rfl, by norm_num [ratingSum]⟩)

/-- C3: the winner delta is
`max((0.2 + 0.2·(winnerPoints/500) + 0.1·adjustedDiff) · quotient, 0.1)`,
the loser delta is the negated base clamped to at most `−0.1`; hence
every winner delta is ≥ 0.1 and every loser delta is ≤ −0.1. -/
theorem calculate_points_formula (diff q : ℚ) (ps : ℤ) :
    calculate_points diff true ps q =
        max ((0.2 + 0.2 * ((ps : ℚ) / 500) + 0.1 * diff) * q) 0.1 ∧
      calculate_points diff false ps q =
        min (-((0.2 + 0.2 * ((ps : ℚ) / 500) + 0.1 * diff) * q)) (-0.1) ∧
      0.1 ≤ calculate_points diff true ps q ∧
      calculate_points diff false ps q ≤ -0.1 := by
  refine ⟨rfl, rfl, ?_, ?_⟩
  · have h : calculate_points diff true ps q =
        max ((0.2 + 0.2 * ((ps : ℚ) / 500) + 0.1 * diff) * q) 0.1 := rfl
    rw [h]
    exact le_max_right _ _
  · have h : calculate_points diff false ps q =
        min (-((0.2 + 0.2 * ((ps : ℚ) / 500) + 0.1 * diff) * q)) (-0.1) := rfl
    rw [h]
    exact min_le_right _ _

/-- C5: on an adjustment call the quotient is
`min(table values) / max(table values)` — with `min`/`max` really the
least and greatest values of the whole table — when the table is
non-empty with positive maximum, and `1.0` otherwise. -/
theorem rating_quotient_spec (st : BalancerState) :
    (st.players ≠ [] ∧ 0 < list_max (st.players.map Prod.snd) →
      match_quotient st =
          list_min (st.players.map Prod.snd) /
            list_max (st.players.map Prod.snd) ∧
        list_min (st.players.map Prod.snd) ∈ st.players.map Prod.snd ∧
        (∀ x ∈ st.players.map Prod.snd,
          list_min (st.players.map Prod.snd) ≤ x) ∧
        list_max (st.players.map Prod.snd) ∈ st.players.map Prod.snd ∧
        (∀ x ∈ st.players.map Prod.snd,
          x ≤ list_max (st.players.map Prod.snd))) ∧
    ((st.players = [] ∨ list_max (st.players.map Prod.snd) ≤ 0) →
      match_quotient st = 1) := by
  constructor
  · rintro ⟨hne, hpos⟩
    have hne2 : st.players.map Prod.snd ≠ [] := by simpa using hne
    refine ⟨?_, (list_min_spec _ hne2).1, (list_min_spec _ hne2).2,
      (list_max_spec _ hne2).1, (list_max_spec _ hne2).2⟩
    unfold match_quotient rating_quotient
    rw [if_pos ⟨hne2, hpos⟩]
  · rintro (hnil | hle)
    · unfold match_quotient rating_quotient
      rw [hnil]
      simp
    · unfold match_quotient rating_quotient
      rw [if_neg (fun hc => absurd hc.2 (not_lt.mpr hle))]

/-- Witness for C5 at the table `[A ↦ 10, B ↦ 8]`. -/
theorem rating_quotient_spec_witness :
    match_quotient ⟨[], [], [("A", (10 : ℚ)), ("B", 8)]⟩ =
      list_min ([("A", (10 : ℚ)), ("B", 8)].map Prod.snd) /
        list_max ([("A", (10 : ℚ)), ("B", 8)].map Prod.snd) :=
  ((rating_quotient_spec ⟨[], [], [("A", (10 : ℚ)), ("B", 8)]⟩).1
    ⟨by simp, by norm_num [list_max]⟩).1

/-- Counterexample to C8: a negative winner score (−100) is not rejected
with `InvalidScore` — the call succeeds and mutates the table. -/
theorem adjust_negative_counterexample :
    adjust ⟨[("A", (10 : ℚ))], [("B", (8 : ℚ))], [("A", 10), ("B", 8)]⟩
        1 (-100) =
      .ok [("A", 101 / 10), ("B", 79 / 10)] ∧
    adjust ⟨[("A", (10 : ℚ))], [("B", (8 : ℚ))], [("A", 10), ("B", 8)]⟩
        1 (-100) ≠
      .error .invalidScore := by
  have h : adjust ⟨[("A", (10 : ℚ))], [("B", (8 : ℚ))], [("A", 10), ("B", 8)]⟩
      1 (-100) = .ok [("A", 101 / 10), ("B", 79 / 10)] := by
    simp [adjust, update_match_results, update_team_ratings,
      update_player_rating, calculate_points, adjusted_diff_calc,
      rating_quotient, list_min, list_max, ratingSum, points_constant,
      points_per_500, diff_amortization, min_gained_points]
    norm_num
  exact ⟨h, by rw [h]; simp⟩

/-- C8 (amended): a negative winner score is accepted — the adjustment
runs and returns the updated table; only a winning-team value outside
`{1, 2}` fails, with `InvalidTeamSelection`, and such a failed call
produces no table update. -/
theorem adjust_negative_accepted (st : BalancerState) (wt ps : ℤ)
    (hps : ps < 0) :
    ((wt = 1 ∨ wt = 2) →
        adjust st wt ps = .ok (update_match_results st wt ps)) ∧
      (¬(wt = 1 ∨ wt = 2) →
        adjust st wt ps = .error .invalidTeamSelection) := by
  constructor
  · rintro (rfl | rfl)
    · rw [adjust, if_neg (fun hc => hc.1 rfl)]
    · rw [adjust, if_neg (fun hc => hc.2 rfl)]
  · intro h
    push_neg at h
    rw [adjust, if_pos h]

/-- Witness for the amended C8: winner score −1, winning team 1. -/
theorem adjust_negative_accepted_witness :
    ((-1 : ℤ) < 0 ∧ ((1 : ℤ) = 1 ∨ (1 : ℤ) = 2)) ∧
      adjust ⟨[("A", (10 : ℚ))], [], [("A", 10)]⟩ 1 (-1) =
        .ok (update_match_results ⟨[("A", (10 : ℚ))], [], [("A", 10)]⟩
          1 (-1)) :=
  ⟨⟨by norm_num, Or.inl rfl⟩,
    (adjust_negative_accepted ⟨[("A", (10 : ℚ))], [], [("A", 10)]⟩ 1 (-1)
      (by norm_num)).1 (Or.inl rfl)⟩

/-- C9: a successful adjustment adds the team delta to every table entry
whose name is on a team, leaves every other entry unchanged, adds no new
entries, and silently skips team members absent from the table. -/
theorem adjust_frame_effect (st : BalancerState) (wt ps : ℤ)
    (tbl : List (String × ℚ)) (hok : adjust st wt ps = .ok tbl)
    (h1 : (st.team1.map Prod.fst).Nodup) (h2 : (st.team2.map Prod.fst).Nodup)
    (hd : ∀ n, n ∈ st.team1.map Prod.fst → n ∉ st.team2.map Prod.fst) :
    tbl =
        st.players.map (fun e =>
          if e.1 ∈ (winner_team st wt).map Prod.fst then
            (e.1, e.2 + winner_delta st wt ps)
          else if e.1 ∈ (loser_team st wt).map Prod.fst then
            (e.1, e.2 + loser_delta st wt ps)
          else e) ∧
      tbl.map Prod.fst = st.players.map Prod.fst := by
  have htbl : tbl = update_match_results st wt ps := by
    by_cases hc : wt ≠ 1 ∧ wt ≠ 2
    · rw [adjust, if_pos hc] at hok
      exact absurd hok (by simp)
    · rw [adjust, if_neg hc] at hok
      simp only [Except.ok.injEq] at hok
      exact hok.symm
  subst htbl
  have hmap := update_match_results_eq_map st wt ps h1 h2 hd
  refine ⟨hmap, ?_⟩
  rw [hmap, List.map_map]
  refine List.map_congr_left ?_
  intro e _
  simp only [Function.comp]
  split_ifs <;> rfl

/-- Witness for C9: the adjustment at state
(`team1 = [A ↦ 10]`, `team2 = [B ↦ 8]`, table `[A ↦ 10, B ↦ 8]`) keeps
the table's name set unchanged. -/
theorem adjust_frame_effect_witness :
    [("A", (254 / 25 : ℚ)), ("B", (196 / 25 : ℚ))].map Prod.fst =
      [("A", (10 : ℚ)), ("B", (8 : ℚ))].map Prod.fst :=
  (adjust_frame_effect
    ⟨[("A", (10 : ℚ))], [("B", (8 : ℚ))], [("A", 10), ("B", 8)]⟩ 1 500
    [("A", 254 / 25), ("B", 196 / 25)]
    (by simp [adjust, update_match_results, update_team_ratings,
          update_player_rating, calculate_points, adjusted_diff_calc,
          rating_quotient, list_min, list_max, ratingSum, points_constant,
          points_per_500, diff_amortization, min_gained_points]
        norm_num)
    (by simp) (by simp) (by simp)).2

/-- Counterexample to C10: the teams `[A ↦ 10, B ↦ 8]` and
`[C ↦ 6, D ↦ 4]` have equal size, yet with `D` absent from the table
`[A ↦ 10, B ↦ 8, C ↦ 6]` the adjustment changes the table sum restricted
to the teams' players (two winners gain 0.1 each, one loser loses 0.1). -/
theorem equal_sizes_sum_not_preserved :
    (([("A", (10 : ℚ)), ("B", 8)] : List Player).length =
        ([("C", (6 : ℚ)), ("D", 4)] : List Player).length) ∧
      restrictedSum
          (update_match_results
            ⟨[("A", 10), ("B", 8)], [("C", 6), ("D", 4)],
              [("A", 10), ("B", 8), ("C", 6)]⟩ 1 500)
          ["A", "B", "C", "D"] ≠
        restrictedSum [("A", (10 : ℚ)), ("B", 8), ("C", 6)]
          ["A", "B", "C", "D"] := by
  refine ⟨rfl, ?_⟩
  have h : update_match_results
      ⟨[("A", 10), ("B", 8)], [("C", 6), ("D", 4)],
        [("A", 10), ("B", 8), ("C", 6)]⟩ 1 500 =
      [("A", 101 / 10), ("B", 81 / 10), ("C", 59 / 10)] := by
    simp [update_match_results, update_team_ratings, update_player_rating,
      calculate_points, adjusted_diff_calc, rating_quotient, list_min,
      list_max, ratingSum, points_constant, points_per_500,
      diff_amortization, min_gained_points]
    norm_num
  rw [h]
  simp [restrictedSum]
  norm_num

/-- C10 (amended): the loser delta is exactly the negated winner delta,
so whenever equally many players of the two teams are present in the
table — in particular when both teams are fully present and of equal
size — the table sum restricted to the teams' players is unchanged. -/
theorem adjust_preserves_restricted_sum (st : BalancerState) (wt ps : ℤ)
    (h1 : (st.team1.map Prod.fst).Nodup) (h2 : (st.team2.map Prod.fst).Nodup)
    (hd : ∀ n, n ∈ st.team1.map Prod.fst → n ∉ st.team2.map Prod.fst)
    (hc : (st.players.countP fun e =>
        decide (e.1 ∈ (winner_team st wt).map Prod.fst)) =
      (st.players.countP fun e =>
        decide (e.1 ∈ (loser_team st wt).map Prod.fst))) :
    loser_delta st wt ps = -winner_delta st wt ps ∧
      restrictedSum (update_match_results st wt ps)
          ((winner_team st wt).map Prod.fst ++
            (loser_team st wt).map Prod.fst) =
        restrictedSum st.players
          ((winner_team st wt).map Prod.fst ++
            (loser_team st wt).map Prod.fst) := by
  have hneg : loser_delta st wt ps = -winner_delta st wt ps := by
    show min (-((points_constant + points_per_500 * ((ps : ℚ) / 500) +
          diff_amortization * adjusted_diff_calc (raw_diff st) wt) *
          match_quotient st)) (-min_gained_points) =
      -max ((points_constant + points_per_500 * ((ps : ℚ) / 500) +
          diff_amortization * adjusted_diff_calc (raw_diff st) wt) *
          match_quotient st) min_gained_points
    exact min_neg_neg _ _
  refine ⟨hneg, ?_⟩
  have hdisj : ∀ n, n ∈ (winner_team st wt).map Prod.fst →
      n ∉ (loser_team st wt).map Prod.fst := by
    unfold winner_team loser_team
    by_cases hwt : wt = 1
    · simp only [if_pos hwt]
      exact hd
    · simp only [if_neg hwt]
      exact fun n hn2 hn1 => hd n hn1 hn2
  rw [update_match_results_eq_map st wt ps h1 h2 hd,
    restrictedSum_map_update _ _ _ _ hdisj st.players, hc, hneg]
  ring

/-- Witness for the amended C10: with both single-player teams present
in the table, the restricted sum hypothesis holds and the loser delta is
the negated winner delta. -/
theorem adjust_preserves_restricted_sum_witness :
    loser_delta ⟨[("A", (10 : ℚ))], [("B", (8 : ℚ))], [("A", 10), ("B", 8)]⟩
        1 500 =
      -winner_delta ⟨[("A", (10 : ℚ))], [("B", (8 : ℚ))],
        [("A", 10), ("B", 8)]⟩ 1 500 :=
  (adjust_preserves_restricted_sum
    ⟨[("A", (10 : ℚ))], [("B", (8 : ℚ))], [("A", 10), ("B", 8)]⟩ 1 500
    (by simp) (by simp) (by simp)
    (by simp [winner_team, loser_team])).1

end CoH2
